import Mathlib

/-!
# Verification of the MicroPython-libs asymmetric-cryptography toolkit

Shallow embedding of the repository's RSA module (`src/RSA/RSA.py`, class
`MicroRSA`) and Ed25519 module (`src/ed25519/ed25519.py`, class
`MicroEd25519`), together with theorems settling the specification claims.

Modelling conventions:
* Python arbitrary-precision integers become `Nat` (or `Int` where the source
  relies on Python's signed arithmetic and sign-preserving `%`).
* `pow(b, e, m)` becomes `powMod`, a fuel-indexed square-and-multiply loop
  (the fuel makes the definition structurally recursive, hence computable by
  the kernel; `powMod_eq` pins its meaning to `b ^ e % m`).
* Python `while` loops become fuel-indexed recursions returning `Option`
  (`none` = the loop did not finish within the fuel).
* The random sources (`urandom.getrandbits`, `uos.urandom`) become explicit
  streams `Nat → Nat` of successive draws; `uhashlib.sha256` becomes an
  opaque digest oracle `List Nat → List Nat` (bytes in, 32 digest bytes out).
* Fallible byte conversions (`int.to_bytes`, which raises `OverflowError`
  when the integer does not fit) return `Option (List Nat)`.
* The LED activity indicator (`machine.Pin`) is a UX-only side effect with no
  data flow and is dropped, as the specification directs.
-/

set_option maxRecDepth 40000

namespace MicroRSA

/-- Source line 10: `self.e = 65537`, the fixed public exponent. -/
def e : Nat := 65537

/-- Source line 9: `self.key_length = min(key_length, 512)` — the requested
key size is clamped to the maximum 512. -/
def key_length (requested : Nat) : Nat := min requested 512

/-- Fuel-indexed body of `MicroRSA.gcd` (source lines 15-18):
`while b: a, b = b, a % b; return a`.  The fuel only bounds the number of
loop iterations; `b` strictly decreases, so fuel `b` always suffices
(`gcd_eq_gcd`). -/
def gcdAux : Nat → Nat → Nat → Nat
  | 0, a, b => if b = 0 then a else 0
  | fuel + 1, a, b => if b = 0 then a else gcdAux fuel b (a % b)

/-- `MicroRSA.gcd` (source lines 15-18), the Euclidean loop. -/
def gcd (a b : Nat) : Nat := gcdAux b a b

/-- `MicroRSA.extended_gcd` (source lines 91-96), recursive extended Euclid:
`if a == 0: return (b, 0, 1); g, y, x = extended_gcd(b % a, a);
return (g, x - (b // a) * y, y)`.  Fuel-indexed on the first argument,
which strictly decreases (`b % a < a`). -/
def egcdAux : Nat → Nat → Nat → Nat × Int × Int
  | 0, _, b => (b, 0, 1)
  | fuel + 1, a, b =>
    if a = 0 then (b, 0, 1)
    else
      let r := egcdAux fuel (b % a) a
      (r.1, r.2.2 - (b / a : Nat) * r.2.1, r.2.1)

/-- `MicroRSA.extended_gcd` with the fuel instantiated (fuel `a` suffices
since the first argument strictly decreases). -/
def extended_gcd (a b : Nat) : Nat × Int × Int := egcdAux a a b

/-- `MicroRSA.modinv` (source lines 85-89): modular inverse from the extended
Euclidean algorithm; `None` when `g != 1`, else `x % m` (Python `%` on a
possibly negative `x` yields the least non-negative residue, hence
`Int.emod` followed by `toNat`). -/
def modinv (a m : Nat) : Option Nat :=
  let r := extended_gcd a m
  if r.1 ≠ 1 then none else some ((r.2.1 % (m : Int)).toNat)

/-- Iterated modular squaring: `sqN k b m = b ^ 2 ^ k % m`. -/
def sqN : Nat → Nat → Nat → Nat
  | 0, b, m => b % m
  | k + 1, b, m => sqN k ((b * b) % m) m

/-- Binary square-and-multiply modular power for exponents below `2 ^ fuel`. -/
def powSmall : Nat → Nat → Nat → Nat → Nat
  | 0, _, _, m => 1 % m
  | fuel + 1, b, ex, m =>
    if ex = 0 then 1 % m
    else
      let r := powSmall fuel ((b * b) % m) (ex / 2) m
      if ex % 2 = 1 then (r * (b % m)) % m else r

/-- Fuel-indexed modular exponentiation consuming 16 exponent bits per level
(the meaning of Python's three-argument `pow`; shallow recursion keeps the
kernel evaluation stack small).  Fuel `ex` always suffices (`powMod_eq`
pins the value to `b ^ ex % m`). -/
def powModAux : Nat → Nat → Nat → Nat → Nat
  | 0, _, _, m => 1 % m
  | fuel + 1, b, ex, m =>
    if ex = 0 then 1 % m
    else (powModAux fuel (sqN 16 b m) (ex / 65536) m * powSmall 16 b (ex % 65536) m) % m

/-- Python `pow(b, ex, m)` (three-argument modular power). -/
def powMod (b ex m : Nat) : Nat := powModAux ex b ex m

/-- Decompose `d` as `oddCore · 2 ^ count`: the loop of source lines 26-30
`while d % 2 == 0: d //= 2; s += 1`, fuel-indexed (fuel `d` suffices). -/
def oddAux : Nat → Nat → Nat × Nat
  | 0, d => (d, 0)
  | fuel + 1, d =>
    if d % 2 = 0 ∧ d ≠ 0 then
      let r := oddAux fuel (d / 2)
      (r.1, r.2 + 1)
    else (d, 0)

/-- The decomposition `n - 1 = d * 2 ^ s` used by `is_prime`. -/
def oddPart (d : Nat) : Nat × Nat := oddAux d d

/-- The Miller-Rabin base drawn in source line 33:
`a = urandom.getrandbits(16) % (n - 4) + 2`; `stream i` is the `i`-th
16-bit draw of the random source. -/
def mrBase (stream : Nat → Nat) (n i : Nat) : Nat := stream i % (n - 4) + 2

/-- Inner squaring loop of `is_prime` (source lines 37-42):
`for __ in range(s - 1): x = pow(x, 2, n); if x == n - 1: break` with the
`for`-`else` returning `False`; `true` here means the `break` was taken
(the round passes), `false` that the loop exhausted. -/
def mrSquares (n : Nat) : Nat → Nat → Bool
  | 0, _ => false
  | k + 1, x =>
    let x' := powMod x 2 n
    if x' = n - 1 then true else mrSquares n k x'

/-- One Miller-Rabin round passes on base `a` iff `mrCheck n d s a`:
`x = a ^ d mod n` is `1` or `n - 1`, or some of the `s - 1` squarings
hits `n - 1`. -/
def mrCheck (n d s a : Nat) : Bool :=
  let x := powMod a d n
  decide (x = 1 ∨ x = n - 1) || mrSquares n (s - 1) x

/-- Outer round loop of `is_prime` (source lines 32-43), one iteration per
round drawing the base from the stream at successive indices. -/
def isPrimeLoop (stream : Nat → Nat) (n d s : Nat) : Nat → Nat → Bool
  | 0, _ => true
  | rounds + 1, i =>
    let a := mrBase stream n i
    let x := powMod a d n
    if x = 1 ∨ x = n - 1 then isPrimeLoop stream n d s rounds (i + 1)
    else if mrSquares n (s - 1) x = true then isPrimeLoop stream n d s rounds (i + 1)
    else false

/-- `MicroRSA.is_prime` (source lines 20-43): Miller-Rabin with
`rounds = self.prime_certainty` rounds and random bases from `stream`. -/
def is_prime (stream : Nat → Nat) (rounds n : Nat) : Bool :=
  if n ≤ 3 then decide (1 < n)
  else if n % 2 = 0 then false
  else
    let ds := oddPart (n - 1)
    isPrimeLoop stream n ds.1 ds.2 rounds 0

/-- `MicroRSA.generate_prime_candidate` (source lines 45-52): redraw a 32-bit
value while it is `< 3`, then force the top bit of the half key length and
the low bit: `p |= (1 << (self.key_length // 2 - 1)) | 1`.  `stream i` is
the `i`-th 32-bit draw; the fuel bounds the redraw loop. -/
def generate_prime_candidate (stream : Nat → Nat) (kl : Nat) : Nat → Nat → Option Nat
  | 0, _ => none
  | fuel + 1, i =>
    let pv := stream i
    if pv < 3 then generate_prime_candidate stream kl fuel (i + 1)
    else some (pv ||| ((1 <<< (kl / 2 - 1)) ||| 1))

/-- Resampling loop of `generate_keys` (source lines 66-69):
`q = self.generate_prime(); while p == q: q = self.generate_prime()`.
`stream` is the sequence of successive `generate_prime` results and `i` the
next unread index; returns the accepted `q` and the next index. -/
def resampleQ (stream : Nat → Nat) (pv : Nat) : Nat → Nat → Option (Nat × Nat)
  | 0, _ => none
  | fuel + 1, i =>
    let q := stream i
    if pv = q then resampleQ stream pv fuel (i + 1) else some (q, i + 1)

/-- Retry loop of `generate_keys` (source lines 75-79):
`while self.gcd(self.e, phi) != 1: p = ...; q = ...` — note that this loop
does NOT re-check `p != q`.  Returns the final `(p, q)`. -/
def gcdRetry (stream : Nat → Nat) : Nat → Nat → Nat → Nat → Option (Nat × Nat)
  | 0, _, _, _ => none
  | fuel + 1, i, pv, q =>
    if gcd e ((pv - 1) * (q - 1)) = 1 then some (pv, q)
    else gcdRetry stream fuel (i + 2) (stream i) (stream (i + 1))

/-- `MicroRSA.generate_keys` (source lines 64-83).  `stream` is the sequence
of successive `generate_prime` results (the claims assume each such result
is prime); returns `((n, e), (n, d))`. -/
def generate_keys (stream : Nat → Nat) (fuel : Nat) : Option ((Nat × Nat) × (Nat × Nat)) :=
  let p0 := stream 0
  match resampleQ stream p0 fuel 1 with
  | none => none
  | some (q0, i) =>
    match gcdRetry stream fuel i p0 q0 with
    | none => none
    | some (p1, q1) =>
      let n := p1 * q1
      let phi := (p1 - 1) * (q1 - 1)
      match modinv e phi with
      | none => none
      | some d => some ((n, e), (n, d))

/-- `MicroRSA._os2ip` (source lines 119-121): big-endian bytes to integer. -/
def os2ip (octets : List Nat) : Nat := octets.foldl (fun acc b => acc * 256 + b) 0

/-- Big-endian digits of `x`, `xlen` bytes, most significant first (the value
of Python's `x.to_bytes(xlen, 'big')` when it fits). -/
def beBytes : Nat → Nat → List Nat
  | _, 0 => []
  | x, len + 1 => beBytes (x / 256) len ++ [x % 256]

/-- `MicroRSA._i2osp` (source lines 123-125): `x.to_bytes(x_len, 'big')`,
`none` when Python would raise `OverflowError` (`x ≥ 256 ^ x_len`). -/
def i2osp (x xlen : Nat) : Option (List Nat) :=
  if x < 256 ^ xlen then some (beBytes x xlen) else none

/-- `MicroRSA.sign` (source lines 98-103) for a `MicroRSA` object whose
(clamped) `key_length` is `kl`.  `digest msg` models
`uhashlib.sha256(encoded msg).digest()` of `_hash_message`. -/
def sign {α : Type} (kl : Nat) (digest : α → List Nat) (message : α)
    (private_key : Nat × Nat) : Option (List Nat) :=
  let n := private_key.1
  let d := private_key.2
  let m := os2ip (digest message)
  let s := powMod m d n
  i2osp s (kl / 8)

/-- `MicroRSA.verify` (source lines 105-111). -/
def verify {α : Type} (digest : α → List Nat) (message : α)
    (signature : List Nat) (public_key : Nat × Nat) : Bool :=
  let n := public_key.1
  let ev := public_key.2
  let m := os2ip (digest message)
  let s := os2ip signature
  let v := powMod s ev n
  decide (m = v)

/-- If every drawable base passes its round, the round loop accepts. -/
theorem isPrimeLoop_of_pass (stream : Nat → Nat) (n d s : Nat)
    (hpass : ∀ i, mrCheck n d s (mrBase stream n i) = true) :
    ∀ rounds i, isPrimeLoop stream n d s rounds i = true := by
  intro rounds
  induction rounds with
  | zero => intro i; rfl
  | succ rounds ih =>
    intro i
    rw [isPrimeLoop]
    by_cases h1 : powMod (mrBase stream n i) d n = 1 ∨ powMod (mrBase stream n i) d n = n - 1
    · rw [if_pos h1]
      exact ih (i + 1)
    · rw [if_neg h1]
      have h2 := hpass i
      rw [mrCheck, Bool.or_eq_true] at h2
      rcases h2 with h2 | h2
      · exact absurd (of_decide_eq_true h2) h1
      · rw [if_pos h2]
        exact ih (i + 1)

/-- If the first drawn base fails its round, the loop (with at least one
round) rejects immediately. -/
theorem isPrimeLoop_of_fail (stream : Nat → Nat) (n d s i : Nat)
    (hfail : mrCheck n d s (mrBase stream n i) = false) (rounds : Nat) :
    isPrimeLoop stream n d s (rounds + 1) i = false := by
  rw [isPrimeLoop]
  rw [mrCheck, Bool.or_eq_false_iff] at hfail
  obtain ⟨h1, h2⟩ := hfail
  rw [if_neg (of_decide_eq_false h1), if_neg (by simp [h2])]

end MicroRSA

namespace MicroEd25519

/-- Source line 12: the field prime `p = 2 ** 255 - 19`. -/
def p : Nat := 2 ^ 255 - 19

/-- `MicroEd25519.inv` (source lines 21-22): `pow(x, self.p - 2, self.p)`. -/
def inv (x : Nat) : Nat := MicroRSA.powMod x (p - 2) p

/-- Source line 13: the curve parameter
`self.d = -121665 * self.inv(121666) % self.p`; Python's `%` on the negative
product yields the least non-negative residue, and `-121665 ≡ p - 121665`. -/
def d : Nat := ((p - 121665) * inv 121666) % p

/-- Source line 14: the group order
`self.l = 2 ** 252 + 27742317777372353535851937790883648493`. -/
def l : Nat := 2 ^ 252 + 27742317777372353535851937790883648493

/-- `MicroEd25519.point_compress` (source lines 24-25):
`(x & ((1 << 255) - 1)) | ((y & 1) << 255)`. -/
def point_compress (x y : Nat) : Nat :=
  (x &&& ((1 <<< 255) - 1)) ||| ((y &&& 1) <<< 255)

/-- Source lines 15-18: the compressed base point `self.G`. -/
def Gx : Nat := 15112221349535400772501151409588531511454012693041857206046113283949847762202

/-- The `y` coordinate of the base point passed to `point_compress` in the
constructor. -/
def Gy : Nat := 46316835694926478169428394003475163141307993866256225615783033603165251855960

/-- The compressed base point `self.G = self.point_compress(Gx, Gy)`. -/
def G : Nat := point_compress Gx Gy

/-- The candidate `y²` computed by `point_decompress` (source line 32):
`y2 = (x * x - 1) * self.inv(self.d * x * x + 1) % self.p`.  The arithmetic
is done in `Int` because Python's `x * x - 1` may be negative (at `x = 0`)
while `%` still returns the least non-negative residue. -/
def y2At (x : Nat) : Nat :=
  ((((x : Int) * x - 1) * inv (d * x * x + 1)) % (p : Int)).toNat

/-- `MicroEd25519.point_decompress` (source lines 27-41). -/
def point_decompress (compressed : Nat) : Nat × Nat :=
  let x := compressed &&& ((1 <<< 255) - 1)
  let y_sign := (compressed >>> 255) &&& 1
  let y2 := y2At x
  let y0 := MicroRSA.powMod y2 ((p + 3) / 8) p
  let y1 := if ((y0 : Int) * y0 - y2) % (p : Int) ≠ 0
            then (y0 * MicroRSA.powMod 2 ((p - 1) / 4) p) % p else y0
  let y := if y1 % 2 ≠ y_sign then (p - y1) % p else y1
  (x, y)

/-- The two-tuple branch of `MicroEd25519.point_add` (source lines 85-111),
acting on affine pairs.  All intermediates are reduced `% p` exactly as in
the source; `Int` is used because `y1 - y2`, `J - I` and `J - d*I` may be
negative in Python. -/
def addCore (P Q : Nat × Nat) : Nat × Nat :=
  let pz : Int := (p : Nat)
  let x1 := P.1
  let y1 := P.2
  let x2 := Q.1
  let y2 := Q.2
  let A := ((y1 : Int) - y2) % pz
  let B := ((x1 : Int) - x2) % pz
  let C := ((y1 : Int) + y2) % pz
  let D := ((x1 : Int) + x2) % pz
  let E := A * A % pz
  let F := B * B % pz
  let Gv := C * C % pz
  let H := D * D % pz
  let I := E * F % pz
  let J := Gv * H % pz
  let K := (J - I) % pz
  let x3 := (A * B) * (J + (d : Int) * I) % pz
  let y3 := (C * D) * (J - (d : Int) * I) % pz
  let z3 := K * (pz - 1) % pz
  let inv_z3 : Int := (inv z3.toNat : Nat)
  (((x3 * inv_z3) % pz).toNat, ((y3 * inv_z3) % pz).toNat)

/-- `MicroEd25519.point_add` (source lines 79-111): `None` operands act as
the identity; otherwise the affine formula `addCore`. -/
def point_add (P Q : Option (Nat × Nat)) : Option (Nat × Nat) :=
  match P, Q with
  | none, q => q
  | pt, none => pt
  | some P', some Q' => some (addCore P' Q')

/-- Identity on points (`forcePair_eq` below): the two branches of the `if`
coincide, whatever the guard's value.  Its only purpose is that evaluating
the guard forces both coordinates to numerals, which keeps the kernel's
evaluation stack shallow on concrete inputs; it has no semantic content. -/
def forcePair (q : Nat × Nat) : Nat × Nat :=
  if q.1 + q.2 = 0 then q else q

/-- Identity on optional points (`forceQ_eq` below), the `Option` analogue
of `forcePair`; again purely an evaluation-order device. -/
def forceQ : Option (Nat × Nat) → Option (Nat × Nat)
  | none => none
  | some q => if q.1 + q.2 = 0 then some q else some q

/-- Entry `points[i]` (for `i ≥ 1`) of the table precomputed in
`scalar_mult` (source lines 53-58): `points[1] = P` and
`points[i] = point_add(points[i - 1], P)`; here `pointsUpTo P (i - 1)`
is `points[i]`.  (`points[0]` is a sentinel that the source never reads:
window digit 0 skips the addition.)  The `forcePair` wrapper is the
identity (`forcePair_eq`). -/
def pointsUpTo (P : Nat × Nat) : Nat → Nat × Nat
  | 0 => P
  | i + 1 => addCore (forcePair (pointsUpTo P i)) P

/-- Window decomposition of `k` (source lines 60-63):
`while k > 0: windows.append(k & mask); k >>= window_size` with
`window_size = 3`; least-significant window first.  Fuel-indexed (fuel `k`
suffices since `k` at least halves each step). -/
def toWindowsAux : Nat → Nat → List Nat
  | 0, _ => []
  | fuel + 1, k => if k = 0 then [] else (k &&& 7) :: toWindowsAux fuel (k >>> 3)

/-- The full window list of `k`, least-significant first. -/
def toWindows (k : Nat) : List Nat := toWindowsAux k k

/-- One iteration of the main loop of `scalar_mult` (source lines 66-75):
three conditional doublings of the accumulator, then the table addition for
a nonzero window digit `w`.  The `forceQ` wrappers are the identity
(`forceQ_eq`) and only serve evaluation order. -/
def stepQ (P : Nat × Nat) (w : Nat) (Q : Option (Nat × Nat)) : Option (Nat × Nat) :=
  let Q1 := forceQ (if Q.isSome then point_add Q Q else Q)
  let Q2 := forceQ (if Q1.isSome then point_add Q1 Q1 else Q1)
  let Q3 := forceQ (if Q2.isSome then point_add Q2 Q2 else Q2)
  if w ≠ 0 then
    match Q3 with
    | none => some (pointsUpTo P (w - 1))
    | some q => some (addCore q (pointsUpTo P (w - 1)))
  else Q3

/-- Main loop of `scalar_mult` (source lines 66-75), processing the windows
most-significant first (the list argument is the reversed window list), one
`stepQ` per window digit. -/
def multLoop (P : Nat × Nat) : List Nat → Option (Nat × Nat) → Option (Nat × Nat)
  | [], Q => Q
  | w :: ws, Q => multLoop P ws (stepQ P w Q)

/-- `MicroEd25519.scalar_mult` (source lines 43-77): decompress `P`, run the
windowed double-and-add, and compress the result
(`self.point_compress(*Q) if Q else None`). -/
def scalar_mult (k P_compressed : Nat) : Option Nat :=
  let P := point_decompress P_compressed
  let Q := multLoop P (toWindows k).reverse none
  Q.map (fun q => point_compress q.1 q.2)

/-- Little-endian bytes to integer: Python `int.from_bytes(bs, 'little')`. -/
def fromLE : List Nat → Nat
  | [] => 0
  | b :: bs => b + 256 * fromLE bs

/-- Little-endian digits of `x`, `len` bytes (`x.to_bytes(len, 'little')`
when it fits). -/
def leBytes : Nat → Nat → List Nat
  | _, 0 => []
  | x, len + 1 => x % 256 :: leBytes (x / 256) len

/-- Python `x.to_bytes(len, 'little')`: `none` when Python would raise
`OverflowError` (`x ≥ 256 ^ len`). -/
def toLE (x len : Nat) : Option (List Nat) :=
  if x < 256 ^ len then some (leBytes x len) else none

/-- The clamping of source lines 118-121 and 137-140:
`a &= ~7` (clear the three lowest bits), `a &= ~(1 << 254)` (clear bit 254),
`a |= (1 << 254)` (set bit 254). -/
def clampScalar (a : Nat) : Nat :=
  let a1 := a - a % 8
  let a2 := if a1.testBit 254 then a1 - 2 ^ 254 else a1
  a2 ||| (1 <<< 254)

/-- `MicroEd25519.generate_secret` (source lines 113-125) in the success
case: hash the 32 seed bytes, read the digest little-endian, clamp.
`H` models `uhashlib.sha256(·).digest()` (32 bytes out). -/
def generate_secret (H : List Nat → List Nat) (seed : List Nat) : Nat :=
  let h := H seed
  clampScalar (fromLE (h.take 32))

/-- `MicroEd25519.generate_keys` (source lines 127-132); the LED toggling is
UX-only and dropped.  `none` models the `AttributeError` Python would raise
if `scalar_mult` returned `None`. -/
def generate_keys (H : List Nat → List Nat) (seed : List Nat) : Option (Nat × Nat) :=
  let secret := generate_secret H seed
  match scalar_mult secret G with
  | none => none
  | some pub => some (secret, pub)

/-- `MicroEd25519.sign` (source lines 134-152).  `H` models
`uhashlib.sha256(·).digest()`; note the digest is 32 bytes, so the "prefix"
`h[32:]` is empty.  `none` models the exceptions Python would raise
(`OverflowError` from `to_bytes`, `AttributeError` from `None.to_bytes`). -/
def sign (H : List Nat → List Nat) (msg : List Nat) (secret : Nat) : Option (List Nat) :=
  match toLE secret 32 with
  | none => none
  | some sb =>
    let h := H sb
    let a := clampScalar (fromLE (h.take 32))
    let r := fromLE (H (h.drop 32 ++ msg)) % l
    match scalar_mult r G with
    | none => none
    | some R =>
      match toLE R 32, scalar_mult a G with
      | none, _ => none
      | _, none => none
      | some Rb, some A =>
        match toLE A 32 with
        | none => none
        | some Ab =>
          let S := (r + fromLE (H (Rb ++ Ab ++ msg)) * a) % l
          match toLE S 32 with
          | none => none
          | some Sb => some (Rb ++ Sb)

/-- `MicroEd25519.verify` (source lines 154-180).  Returns `some b` for a
normal boolean result, `none` where Python would raise (`OverflowError`
from `public.to_bytes`, `TypeError` from decompressing a `None`
scalar-multiple).  Note the length and `S ≥ l` checks happen before any of
those can occur. -/
def verify (H : List Nat → List Nat) (msg sig : List Nat) (public : Nat) : Option Bool :=
  if sig.length ≠ 64 then some false
  else
    let R := fromLE (sig.take 32)
    let S := fromLE (sig.drop 32)
    if S ≥ l then some false
    else
      match toLE public 32 with
      | none => none
      | some Ab =>
        let h := fromLE (H (sig.take 32 ++ Ab ++ msg)) % l
        let left := scalar_mult S G
        match scalar_mult h public with
        | none => none
        | some hA =>
          match point_add (some (point_decompress R)) (some (point_decompress hA)) with
          | none => some false
          | some right => some (decide (left = some (point_compress right.1 right.2)))

end MicroEd25519

/-! ## Auxiliary definitions: bounded checker and concrete test inputs -/

/-- Balanced-split bounded universal checker: splitting the interval in two
keeps the kernel evaluation stack logarithmic in `n`. -/
def ballSplit : Nat → (Nat → Bool) → Nat → Nat → Bool
  | 0, _, _, n => decide (n = 0)
  | fuel + 1, f, lo, n =>
    if n = 0 then true
    else if n = 1 then f lo
    else ballSplit fuel f lo (n / 2) && ballSplit fuel f (lo + n / 2) (n - n / 2)

/-- An adversarial but prime-valued `generate_prime` result stream:
`917519 = 14 * 65537 + 1` (prime, with `e ∣ 917519 - 1`), then `3`, then
constantly `5`.  It drives the gcd-retry loop of `generate_keys` into
resampling and returning `p = q = 5`. -/
def cstream : Nat → Nat := fun i => if i = 0 then 917519 else if i = 1 then 3 else 5

/-- A benign prime stream: `5`, then constantly `11`. -/
def wstream : Nat → Nat := fun i => if i = 0 then 5 else 11

/-- A digest oracle returning the 32-byte little-endian encoding of `1`
(an opaque stand-in for `uhashlib.sha256(·).digest()`). -/
def Hone : List Nat → List Nat := fun _ => 1 :: List.replicate 31 0

/-- A digest oracle whose 32 digest bytes are all `255` (so the digest value
is `256 ^ 32 - 1`, the shape of a real SHA-256 digest). -/
def bigDigest : Unit → List Nat := fun _ => List.replicate 32 255

/-- A fixed 32-byte all-zero random seed. -/
def seed0 : List Nat := List.replicate 32 0

theorem ballSplit_spec : ∀ fuel f lo n, ballSplit fuel f lo n = true →
    ∀ v, lo ≤ v → v < lo + n → f v = true := by
  intro fuel
  induction fuel with
  | zero => intro f lo n h v h1 h2; simp [ballSplit] at h; omega
  | succ fuel ih =>
    intro f lo n h v h1 h2
    rw [ballSplit] at h
    by_cases hn0 : n = 0
    · omega
    · rw [if_neg hn0] at h
      by_cases hn1 : n = 1
      · rw [if_pos hn1] at h
        have hv : v = lo := by omega
        rwa [hv]
      · rw [if_neg hn1, Bool.and_eq_true] at h
        rcases Nat.lt_or_ge v (lo + n / 2) with h3 | h3
        · exact ih f lo (n / 2) h.1 v h1 h3
        · exact ih f (lo + n / 2) (n - n / 2) h.2 v h3 (by omega)

namespace MicroRSA

/-- The Euclidean loop agrees with `Nat.gcd` whenever it has enough fuel. -/
theorem gcdAux_eq : ∀ fuel a b, b ≤ fuel → gcdAux fuel a b = Nat.gcd a b := by
  intro fuel
  induction fuel with
  | zero =>
    intro a b hb
    have hb0 : b = 0 := Nat.le_zero.mp hb
    subst hb0
    simp [gcdAux]
  | succ fuel ih =>
    intro a b hb
    by_cases hb0 : b = 0
    · subst hb0; simp [gcdAux]
    · rw [gcdAux, if_neg hb0, ih b (a % b) (by
        have := Nat.mod_lt a (Nat.pos_of_ne_zero hb0); omega)]
      rw [Nat.gcd_comm a b, Nat.gcd_rec b a]
      exact (Nat.gcd_comm _ _).symm ▸ rfl

/-- `MicroRSA.gcd` computes `Nat.gcd`. -/
theorem gcd_eq (a b : Nat) : gcd a b = Nat.gcd a b := gcdAux_eq b a b le_rfl

/-- Correctness of the fueled extended Euclid: with enough fuel it returns
the gcd together with Bezout coefficients. -/
theorem egcdAux_spec : ∀ fuel a b, a ≤ fuel →
    (egcdAux fuel a b).1 = Nat.gcd a b ∧
    (a : Int) * (egcdAux fuel a b).2.1 + (b : Int) * (egcdAux fuel a b).2.2
      = ((egcdAux fuel a b).1 : Int) := by
  intro fuel
  induction fuel with
  | zero =>
    intro a b ha
    have ha0 : a = 0 := Nat.le_zero.mp ha
    subst ha0
    refine ⟨by simp [egcdAux], by simp [egcdAux]⟩
  | succ fuel ih =>
    intro a b ha
    by_cases ha0 : a = 0
    · subst ha0
      refine ⟨by simp [egcdAux], by simp [egcdAux]⟩
    · have hlt : b % a ≤ fuel := by
        have := Nat.mod_lt b (Nat.pos_of_ne_zero ha0); omega
      obtain ⟨hg, hbez⟩ := ih (b % a) a hlt
      have hba : ((b % a : Nat) : Int) = (b : Int) - (a : Int) * ((b / a : Nat) : Int) := by
        have hdm : a * (b / a) + b % a = b := Nat.div_add_mod b a
        have hc := congrArg (Nat.cast : Nat → Int) hdm
        push_cast at hc ⊢
        linarith
      constructor
      · rw [egcdAux, if_neg ha0]
        rw [show (let r := egcdAux fuel (b % a) a;
            (r.1, r.2.2 - (b / a : Nat) * r.2.1, r.2.1)).1 = (egcdAux fuel (b % a) a).1 from rfl]
        rw [hg]
        exact (Nat.gcd_rec a b).symm
      · rw [egcdAux, if_neg ha0]
        have hstep := hbez
        rw [hba] at hstep
        push_cast at hstep ⊢
        linarith

/-- `extended_gcd` returns the gcd and Bezout coefficients. -/
theorem extended_gcd_spec (a b : Nat) :
    (extended_gcd a b).1 = Nat.gcd a b ∧
    (a : Int) * (extended_gcd a b).2.1 + (b : Int) * (extended_gcd a b).2.2
      = ((extended_gcd a b).1 : Int) :=
  egcdAux_spec a a b le_rfl

/-- `modinv` on coprime inputs returns the least non-negative modular
inverse; on non-coprime inputs it returns `none`. -/
theorem modinv_spec (a m : Nat) (hm : 0 < m) :
    (Nat.gcd a m = 1 →
      ∃ x, modinv a m = some x ∧ x < m ∧ (a * x) % m = 1 % m) ∧
    (Nat.gcd a m ≠ 1 → modinv a m = none) := by
  obtain ⟨hg, hbez⟩ := extended_gcd_spec a m
  constructor
  · intro hco
    refine ⟨((extended_gcd a m).2.1 % (m : Int)).toNat, ?_, ?_, ?_⟩
    · rw [modinv]
      simp [hg, hco]
    · have h1 : (extended_gcd a m).2.1 % (m : Int) < (m : Int) :=
        Int.emod_lt_of_pos _ (by exact_mod_cast hm)
      have h2 : 0 ≤ (extended_gcd a m).2.1 % (m : Int) :=
        Int.emod_nonneg _ (by exact_mod_cast hm.ne')
      omega
    · have h2 : 0 ≤ (extended_gcd a m).2.1 % (m : Int) :=
        Int.emod_nonneg _ (by exact_mod_cast hm.ne')
      have key : ((a : Int) * ((extended_gcd a m).2.1 % (m : Int))) % (m : Int)
          = 1 % (m : Int) := by
        rw [Int.mul_emod, Int.emod_emod_of_dvd _ dvd_rfl, ← Int.mul_emod]
        have : (a : Int) * (extended_gcd a m).2.1
            = 1 - (m : Int) * (extended_gcd a m).2.2 := by
          rw [hg, hco] at hbez
          push_cast at hbez
          linarith
        rw [this, Int.sub_emod, Int.mul_emod_right]
        simp
      have hmod : (((a * ((extended_gcd a m).2.1 % (m : Int)).toNat) % m : Nat) : Int)
          = ((1 % m : Nat) : Int) := by
        push_cast [Int.toNat_of_nonneg h2]
        exact key
      exact_mod_cast hmod
  · intro hco
    rw [modinv]
    simp [hg, hco]

/-- `sqN` computes iterated modular squaring. -/
theorem sqN_eq : ∀ k b m, sqN k b m = b ^ (2 ^ k) % m := by
  intro k
  induction k with
  | zero => intro b m; simp [sqN]
  | succ k ih =>
    intro b m
    rw [sqN, ih, ← Nat.pow_mod]
    congr 1
    rw [show b * b = b ^ 2 by ring, ← pow_mul]
    congr 1
    rw [pow_succ]
    ring

/-- `powSmall` computes modular power for exponents below `2 ^ fuel`. -/
theorem powSmall_eq : ∀ fuel b ex m, ex < 2 ^ fuel → powSmall fuel b ex m = b ^ ex % m := by
  intro fuel
  induction fuel with
  | zero =>
    intro b ex m hex
    have : ex = 0 := by omega
    subst this; simp [powSmall]
  | succ fuel ih =>
    intro b ex m hex
    by_cases hex0 : ex = 0
    · subst hex0; simp [powSmall]
    · rw [powSmall, if_neg hex0]
      have hlt : ex / 2 < 2 ^ fuel := by
        have : ex < 2 ^ fuel * 2 := by
          have := hex; rw [pow_succ] at this; omega
        omega
      rw [ih ((b * b) % m) (ex / 2) m hlt, ← Nat.pow_mod]
      have hsplit : b ^ ex = (b * b) ^ (ex / 2) * b ^ (ex % 2) := by
        rw [show b * b = b ^ 2 by ring, ← pow_mul, ← pow_add]
        congr 1
        omega
      by_cases hpar : ex % 2 = 1
      · rw [if_pos hpar, hsplit, hpar, pow_one]
        conv_rhs => rw [Nat.mul_mod]
      · rw [if_neg hpar, hsplit, show ex % 2 = 0 by omega, pow_zero, mul_one]

/-- `powModAux` computes modular power given enough fuel. -/
theorem powModAux_eq : ∀ fuel b ex m, ex ≤ fuel → powModAux fuel b ex m = b ^ ex % m := by
  intro fuel
  induction fuel with
  | zero =>
    intro b ex m hex
    have : ex = 0 := by omega
    subst this; simp [powModAux]
  | succ fuel ih =>
    intro b ex m hex
    by_cases hex0 : ex = 0
    · subst hex0; simp [powModAux]
    · rw [powModAux, if_neg hex0]
      have hlt : ex / 65536 ≤ fuel := by
        have h1 : ex / 65536 < ex := Nat.div_lt_self (Nat.pos_of_ne_zero hex0) (by norm_num)
        omega
      rw [ih (sqN 16 b m) (ex / 65536) m hlt, sqN_eq,
        powSmall_eq 16 b (ex % 65536) m
          (by rw [show (2 : Nat) ^ 16 = 65536 by norm_num]; omega)]
      have h1 : (b ^ (2 ^ 16) % m) ^ (ex / 65536) % m = b ^ (2 ^ 16 * (ex / 65536)) % m := by
        rw [← Nat.pow_mod, ← pow_mul]
      rw [h1, ← Nat.mul_mod, ← pow_add]
      congr 1
      rw [show (2 : Nat) ^ 16 = 65536 by norm_num, Nat.div_add_mod]

/-- Python `pow(b, ex, m)` is `b ^ ex % m`. -/
theorem powMod_eq (b ex m : Nat) : powMod b ex m = b ^ ex % m :=
  powModAux_eq ex b ex m le_rfl

/-- Big-endian serialisation truncates to `xlen` bytes. -/
theorem os2ip_beBytes : ∀ xlen x, os2ip (beBytes x xlen) = x % 256 ^ xlen := by
  intro xlen
  induction xlen with
  | zero => intro x; simp [beBytes, os2ip, Nat.mod_one]
  | succ n ih =>
    intro x
    rw [beBytes]
    have hfold : os2ip (beBytes (x / 256) n ++ [x % 256])
        = os2ip (beBytes (x / 256) n) * 256 + x % 256 := by
      rw [os2ip, os2ip, List.foldl_append]
      rfl
    rw [hfold, ih]
    have h256 : (256 : Nat) ^ (n + 1) = 256 ^ n * 256 := by ring
    rw [h256]
    have hd : x % (256 ^ n * 256) / 256 = x / 256 % 256 ^ n := by
      rw [Nat.mul_comm (256 ^ n) 256]
      exact Nat.mod_mul_right_div_self x 256 (256 ^ n)
    have hm : x % (256 ^ n * 256) % 256 = x % 256 :=
      Nat.mod_mod_of_dvd x ⟨256 ^ n, by ring⟩
    have := Nat.div_add_mod (x % (256 ^ n * 256)) 256
    omega

/-- Round-trip: `os2ip (i2osp x len) = x` when `x` fits. -/
theorem os2ip_i2osp (x xlen : Nat) (h : x < 256 ^ xlen) :
    i2osp x xlen = some (beBytes x xlen) ∧ os2ip (beBytes x xlen) = x := by
  refine ⟨by rw [i2osp, if_pos h], ?_⟩
  rw [os2ip_beBytes, Nat.mod_eq_of_lt h]

/-- Fermat step: for a prime `p`, `m ^ (t * (p - 1) + 1) ≡ m (mod p)`
for every `m` (including multiples of `p`). -/
theorem pow_exp_round (p : Nat) (hp : p.Prime) (m t : Nat) :
    m ^ (t * (p - 1) + 1) ≡ m [MOD p] := by
  by_cases hdvd : p ∣ m
  · have h0 : m ≡ 0 [MOD p] := (Nat.modEq_zero_iff_dvd).mpr hdvd
    calc m ^ (t * (p - 1) + 1) ≡ 0 ^ (t * (p - 1) + 1) [MOD p] := h0.pow _
      _ = 0 := by rw [zero_pow (Nat.succ_ne_zero _)]
      _ ≡ m [MOD p] := h0.symm
  · have hco : Nat.Coprime m p :=
      Nat.Coprime.symm ((Nat.Prime.coprime_iff_not_dvd hp).mpr hdvd)
    have hferm : m ^ (p - 1) ≡ 1 [MOD p] := by
      have := Nat.ModEq.pow_totient hco
      rwa [Nat.totient_prime hp] at this
    calc m ^ (t * (p - 1) + 1) = (m ^ (p - 1)) ^ t * m := by
          rw [← pow_mul, ← pow_succ]
          congr 1
          ring
      _ ≡ 1 ^ t * m [MOD p] := (hferm.pow t).mul_right m
      _ = m := by rw [one_pow, one_mul]

/-- The textbook-RSA key equation: for distinct primes `p ≠ q` and exponents
with `e' * d ≡ 1 (mod (p-1)(q-1))`, raising to `d` then `e'` is the
identity on `[0, p*q)`. -/
theorem rsa_key_round (p q e' d : Nat) (hp : p.Prime) (hq : q.Prime) (hpq : p ≠ q)
    (hed : (e' * d) % ((p - 1) * (q - 1)) = 1 % ((p - 1) * (q - 1)))
    (m : Nat) (hm : m < p * q) : m ^ (d * e') % (p * q) = m := by
  have h2p := hp.two_le
  have h2q := hq.two_le
  have hphi : 2 ≤ (p - 1) * (q - 1) := by
    by_cases hp2 : p = 2
    · have hq3 : 3 ≤ q := by
        rcases Nat.lt_or_ge q 3 with h | h
        · exfalso; apply hpq; omega
        · exact h
      subst hp2; simpa using (by omega : 2 ≤ q - 1)
    · by_cases hq2 : q = 2
      · subst hq2; simpa using (by omega : 2 ≤ p - 1)
      · have := Nat.mul_le_mul (show 2 ≤ p - 1 by omega) (show 2 ≤ q - 1 by omega)
        omega
  have h1phi : 1 % ((p - 1) * (q - 1)) = 1 := Nat.mod_eq_of_lt (by omega)
  rw [h1phi] at hed
  have hK := Nat.div_add_mod (e' * d) ((p - 1) * (q - 1))
  rw [hed] at hK
  set K := e' * d / ((p - 1) * (q - 1)) with hKdef
  have hde : d * e' = K * (q - 1) * (p - 1) + 1 := by
    have : d * e' = e' * d := by ring
    rw [this, ← hK]
    ring
  have hmodp : m ^ (d * e') ≡ m [MOD p] := by
    rw [hde]; exact pow_exp_round p hp m (K * (q - 1))
  have hmodq : m ^ (d * e') ≡ m [MOD q] := by
    have hde' : d * e' = K * (p - 1) * (q - 1) + 1 := by rw [hde]; ring
    rw [hde']; exact pow_exp_round q hq m (K * (p - 1))
  have hco : Nat.Coprime p q := (Nat.coprime_primes hp hq).mpr hpq
  have := (Nat.modEq_and_modEq_iff_modEq_mul hco).mp ⟨hmodp, hmodq⟩
  calc m ^ (d * e') % (p * q) = m % (p * q) := this
    _ = m := Nat.mod_eq_of_lt hm

/-- Every `q` accepted by the resampling loop is a stream value different
from `p`. -/
theorem resampleQ_spec : ∀ fuel stream pv i q i',
    resampleQ stream pv fuel i = some (q, i') → (∃ j, q = stream j) ∧ q ≠ pv := by
  intro fuel
  induction fuel with
  | zero => intro stream pv i q i' h; simp [resampleQ] at h
  | succ fuel ih =>
    intro stream pv i q i' h
    rw [resampleQ] at h
    by_cases heq : pv = stream i
    · rw [if_pos heq] at h
      exact ih stream pv (i + 1) q i' h
    · rw [if_neg heq] at h
      simp only [Option.some.injEq, Prod.mk.injEq] at h
      obtain ⟨hq, _⟩ := h
      exact ⟨⟨i, hq.symm⟩, by rw [← hq]; exact fun hc => heq hc.symm⟩

/-- The retry loop returns either its input pair or a pair of stream values,
and in either case the returned pair passes the gcd test. -/
theorem gcdRetry_spec : ∀ fuel stream i pv q p' q',
    gcdRetry stream fuel i pv q = some (p', q') →
    ((p' = pv ∧ q' = q) ∨ (∃ j k, j ≠ k ∧ p' = stream j ∧ q' = stream k)) ∧
      gcd e ((p' - 1) * (q' - 1)) = 1 := by
  intro fuel
  induction fuel with
  | zero => intro stream i pv q p' q' h; simp [gcdRetry] at h
  | succ fuel ih =>
    intro stream i pv q p' q' h
    rw [gcdRetry] at h
    by_cases hg : gcd e ((pv - 1) * (q - 1)) = 1
    · rw [if_pos hg] at h
      simp only [Option.some.injEq, Prod.mk.injEq] at h
      obtain ⟨h1, h2⟩ := h
      subst h1; subst h2
      exact ⟨Or.inl ⟨rfl, rfl⟩, hg⟩
    · rw [if_neg hg] at h
      obtain ⟨hcase, hgcd⟩ := ih stream (i + 2) (stream i) (stream (i + 1)) p' q' h
      refine ⟨?_, hgcd⟩
      rcases hcase with ⟨h1, h2⟩ | ⟨j, k, hjk, h1, h2⟩
      · exact Or.inr ⟨i, i + 1, by omega, h1, h2⟩
      · exact Or.inr ⟨j, k, hjk, h1, h2⟩

/-- Inversion of `generate_keys`: a successful run yields `n = p * q` for two
stream values `p`, `q` with `gcd e ((p-1)(q-1)) = 1` and
`d = modinv e ((p-1)(q-1))`; moreover `p ≠ q` holds whenever the retry pair
came from distinct draws or the retry loop was not taken. -/
theorem generate_keys_spec (stream : Nat → Nat) (fuel : Nat)
    (n e0 n2 d : Nat)
    (h : generate_keys stream fuel = some ((n, e0), (n2, d))) :
    ∃ p q, (∃ j, p = stream j) ∧ (∃ k, q = stream k) ∧
      n = p * q ∧ n2 = n ∧ e0 = e ∧
      gcd e ((p - 1) * (q - 1)) = 1 ∧
      modinv e ((p - 1) * (q - 1)) = some d := by
  rw [generate_keys] at h
  cases hres : resampleQ stream (stream 0) fuel 1 with
  | none => rw [hres] at h; simp at h
  | some qi =>
    obtain ⟨q0, i⟩ := qi
    rw [hres] at h
    dsimp only at h
    cases hretry : gcdRetry stream fuel i (stream 0) q0 with
    | none => rw [hretry] at h; simp at h
    | some pq =>
      obtain ⟨p1, q1⟩ := pq
      rw [hretry] at h
      dsimp only at h
      cases hinv : modinv e ((p1 - 1) * (q1 - 1)) with
      | none => rw [hinv] at h; simp at h
      | some d0 =>
        rw [hinv] at h
        simp only [Option.some.injEq, Prod.mk.injEq] at h
        obtain ⟨⟨hn, he0⟩, hn2, hd⟩ := h
        obtain ⟨⟨jq, hjq⟩, _⟩ := resampleQ_spec fuel stream (stream 0) 1 q0 i hres
        obtain ⟨hcase, hgcd⟩ := gcdRetry_spec fuel stream i (stream 0) q0 p1 q1 hretry
        refine ⟨p1, q1, ?_, ?_, hn.symm, by omega, he0.symm, hgcd, by rw [hinv, hd]⟩
        · rcases hcase with ⟨h1, _⟩ | ⟨j, k, _, h1, _⟩
          · exact ⟨0, h1⟩
          · exact ⟨j, h1⟩
        · rcases hcase with ⟨_, h2⟩ | ⟨j, k, _, _, h2⟩
          · exact ⟨jq, h2 ▸ hjq⟩
          · exact ⟨k, h2⟩

end MicroRSA

/-! ## Claim C6: modular inverse -/

/-- C6 (counterexample): at the positive inputs `a = 1`, `m = 1` we have
`gcd(1, 1) = 1` and `modinv` returns `0`, but `(1 * 0) % 1 = 0 ≠ 1`: the
claimed postcondition `(a * x) % m = 1` fails at `m = 1` (the congruence
`a * x ≡ 1 (mod 1)` does hold, but the literal residue equation does not). -/
theorem claim_C6_counterexample :
    Nat.gcd 1 1 = 1 ∧ MicroRSA.modinv 1 1 = some 0 ∧ ¬((1 * 0) % 1 = 1) := by decide

/-- C6 (amended): for positive `a`, `m` with `gcd(a, m) = 1`, `modinv a m`
returns `some x` with `0 ≤ x < m` and `a * x ≡ 1 (mod m)` — stated as
`(a * x) % m = 1 % m`, which is `= 1` for every `m ≥ 2`; and for
`gcd(a, m) ≠ 1` it returns `none`. -/
theorem claim_C6_modinv (a m : Nat) (_ha : 0 < a) (hm : 0 < m) :
    (Nat.gcd a m = 1 →
      ∃ x, MicroRSA.modinv a m = some x ∧ x < m ∧ (a * x) % m = 1 % m) ∧
    (Nat.gcd a m ≠ 1 → MicroRSA.modinv a m = none) :=
  MicroRSA.modinv_spec a m hm

/-- C6 (witness): the amended theorem applied at `a = 3`, `m = 7`. -/
theorem claim_C6_witness :
    (Nat.gcd 3 7 = 1 →
      ∃ x, MicroRSA.modinv 3 7 = some x ∧ x < 7 ∧ (3 * x) % 7 = 1 % 7) ∧
    (Nat.gcd 3 7 ≠ 1 → MicroRSA.modinv 3 7 = none) :=
  claim_C6_modinv 3 7 (by decide) (by decide)

/-! ## Claim C10: the Miller-Rabin witness range -/

/-- C10: in `is_prime`, for every candidate `n > 2 ^ 16 + 4` and every 16-bit
draw `r = stream i < 2 ^ 16`, the drawn base `a = r % (n - 4) + 2` satisfies
`2 ≤ a ≤ 2 ^ 16 + 1 = 65537`; in particular the advertised witness range
`[2, n - 2]` is never fully reachable since `2 ^ 16 + 1 < n - 2`. -/
theorem claim_C10_base_range (stream : Nat → Nat) (n i : Nat)
    (hn : 2 ^ 16 + 4 < n) (hr : stream i < 2 ^ 16) :
    2 ≤ MicroRSA.mrBase stream n i ∧ MicroRSA.mrBase stream n i ≤ 2 ^ 16 + 1 ∧
      2 ^ 16 + 1 < n - 2 := by
  rw [MicroRSA.mrBase, Nat.mod_eq_of_lt (by omega)]
  omega

/-- C10 (witness): the theorem applied to the zero stream and
`n = 2 ^ 16 + 5`. -/
theorem claim_C10_witness :
    2 ≤ MicroRSA.mrBase (fun _ => 0) (2 ^ 16 + 5) 0 ∧
    MicroRSA.mrBase (fun _ => 0) (2 ^ 16 + 5) 0 ≤ 2 ^ 16 + 1 ∧
    2 ^ 16 + 1 < (2 ^ 16 + 5) - 2 :=
  claim_C10_base_range (fun _ => 0) (2 ^ 16 + 5) 0 (by decide) (by decide)

/-! ## Claim C8: prime candidate shape -/

/-- Inversion of the candidate loop: a successful draw is a stream value
`≥ 3` or-ed with the forced high and low bits. -/
theorem generate_prime_candidate_inv : ∀ fuel stream kl i pv,
    MicroRSA.generate_prime_candidate stream kl fuel i = some pv →
    ∃ j, 3 ≤ stream j ∧ pv = stream j ||| ((1 <<< (kl / 2 - 1)) ||| 1) := by
  intro fuel
  induction fuel with
  | zero =>
    intro stream kl i pv h
    simp [MicroRSA.generate_prime_candidate] at h
  | succ fuel ih =>
    intro stream kl i pv h
    rw [MicroRSA.generate_prime_candidate] at h
    by_cases hlt : stream i < 3
    · rw [if_pos hlt] at h
      exact ih stream kl (i + 1) pv h
    · rw [if_neg hlt] at h
      simp only [Option.some.injEq] at h
      exact ⟨i, by omega, h.symm⟩

/-- C8: every candidate returned by `generate_prime_candidate` (for a
clamped key length whose half-length high bit index `kl / 2 - 1` is at
least 32, e.g. the default 384 or the maximum 512, and a 32-bit random
stream) is odd, has bit `kl / 2 - 1` set, has all bits from index 32 up to
`kl / 2 - 2` clear, and lies in
`[2 ^ (kl / 2 - 1), 2 ^ (kl / 2 - 1) + 2 ^ 32)`. -/
theorem claim_C8_candidate_shape (stream : Nat → Nat) (kl fuel i pv : Nat)
    (hs : ∀ j, stream j < 2 ^ 32) (hk : 32 ≤ kl / 2 - 1)
    (h : MicroRSA.generate_prime_candidate stream kl fuel i = some pv) :
    pv % 2 = 1 ∧
    2 ^ (kl / 2 - 1) ≤ pv ∧ pv < 2 ^ (kl / 2 - 1) + 2 ^ 32 ∧
    pv.testBit (kl / 2 - 1) = true ∧
    (∀ j, 32 ≤ j → j < kl / 2 - 1 → pv.testBit j = false) := by
  obtain ⟨j, _, hpv⟩ := generate_prime_candidate_inv fuel stream kl i pv h
  set hbit := kl / 2 - 1 with hhb
  have hpow : (2 : Nat) ^ 32 ≤ 2 ^ hbit := Nat.pow_le_pow_right (by norm_num) hk
  have hsj : stream j < 2 ^ 32 := hs j
  have hlow : stream j ||| 1 < 2 ^ 32 :=
    Nat.or_lt_two_pow hsj (lt_of_lt_of_le (by norm_num) (le_refl _))
  have hodd : (stream j ||| 1) % 2 = 1 := Nat.or_mod_two_eq_one.mpr (Or.inr rfl)
  have hshift : (1 : Nat) <<< hbit = 2 ^ hbit := by
    rw [Nat.shiftLeft_eq, one_mul]
  have hrearr : pv = (stream j ||| 1) + 2 ^ hbit := by
    rw [hpv, hshift]
    rw [Nat.or_comm (2 ^ hbit) 1, ← Nat.or_assoc]
    have := Nat.mul_add_lt_is_or (lt_of_lt_of_le hlow hpow) 1
    rw [mul_one] at this
    rw [Nat.or_comm (stream j ||| 1) (2 ^ hbit), ← this, Nat.add_comm]
  have hbig : 1 ≤ hbit := le_trans (by norm_num) hk
  have heven : (2 : Nat) ^ hbit % 2 = 0 := by
    have : (2 : Nat) ^ hbit = 2 ^ (hbit - 1) * 2 := by
      rw [← pow_succ]
      congr 1
      omega
    omega
  refine ⟨by omega, by omega, by omega, ?_, ?_⟩
  · rw [hrearr, Nat.add_comm, Nat.testBit_two_pow_add_eq,
      Nat.testBit_lt_two_pow (lt_of_lt_of_le hlow hpow)]
    rfl
  · intro jj h32 hjj
    rw [hrearr, Nat.add_comm, Nat.testBit_two_pow_add_gt hjj]
    exact Nat.testBit_lt_two_pow
      (lt_of_lt_of_le hlow (Nat.pow_le_pow_right (by norm_num) h32))

/-- C8 (witness): the constant stream `4` with the default key length 384
produces the candidate `2 ^ 191 + 5`. -/
theorem claim_C8_witness :
    (2 ^ 191 + 5) % 2 = 1 ∧
    2 ^ (384 / 2 - 1) ≤ 2 ^ 191 + 5 ∧ 2 ^ 191 + 5 < 2 ^ (384 / 2 - 1) + 2 ^ 32 ∧
    (2 ^ 191 + 5 : Nat).testBit (384 / 2 - 1) = true ∧
    (∀ j, 32 ≤ j → j < 384 / 2 - 1 → (2 ^ 191 + 5 : Nat).testBit j = false) := by
  have h := claim_C8_candidate_shape (fun _ => 4) 384 1 0 (2 ^ 191 + 5)
    (fun _ => by norm_num) (by norm_num) (by decide)
  simpa using h

/-! ## Claim C5: generate_keys invariants -/

/-- C5 (counterexample): with the prime-valued stream `cstream`
(`917519, 3, 5, 5, ...`) the gcd-retry loop of `generate_keys` fires — since
`e = 65537` divides `917519 - 1` — and resamples `p = q = 5` WITHOUT
re-checking `p ≠ q`, returning the modulus `n = 25`, which is not a product
of two distinct primes. -/
theorem claim_C5_counterexample :
    MicroRSA.generate_keys cstream 4 = some ((25, 65537), (25, 1)) ∧
    (∀ i, Nat.Prime (cstream i)) ∧
    ¬ ∃ p q, Nat.Prime p ∧ Nat.Prime q ∧ p ≠ q ∧ 25 = p * q := by
  refine ⟨by decide, ?_, ?_⟩
  · intro i
    by_cases h0 : i = 0
    · subst h0; rw [show cstream 0 = 917519 from rfl]; norm_num
    · by_cases h1 : i = 1
      · subst h1; rw [show cstream 1 = 3 from rfl]; norm_num
      · rw [show cstream i = 5 by simp [cstream, h0, h1]]; norm_num
  · rintro ⟨p, q, hp, hq, hne, hmul⟩
    have h25 : (25 : Nat) = 5 ^ 2 := by norm_num
    have hpdvd : p ∣ 25 := ⟨q, hmul⟩
    have hqdvd : q ∣ 25 := ⟨p, by rw [hmul]; ring⟩
    have hp5 : p = 5 := by
      have := hp.dvd_of_dvd_pow (h25 ▸ hpdvd)
      exact (Nat.prime_dvd_prime_iff_eq hp (by norm_num)).mp this
    have hq5 : q = 5 := by
      have := hq.dvd_of_dvd_pow (h25 ▸ hqdvd)
      exact (Nat.prime_dvd_prime_iff_eq hq (by norm_num)).mp this
    exact hne (hp5.trans hq5.symm)

/-- C5 (amended): assuming `generate_prime` only returns primes, every key
pair returned by `generate_keys` has `n = p * q` for primes `p`, `q` with
`gcd(e, (p - 1) * (q - 1)) = 1` holding at the moment `d` is computed; the
two primes need NOT be distinct in general, because the gcd-retry loop does
not re-check `p ≠ q` after resampling. -/
theorem claim_C5_invariants (stream : Nat → Nat) (fuel n e0 n2 d : Nat)
    (hgen : MicroRSA.generate_keys stream fuel = some ((n, e0), (n2, d)))
    (hp : ∀ i, Nat.Prime (stream i)) :
    ∃ p q, Nat.Prime p ∧ Nat.Prime q ∧ n = p * q ∧
      Nat.gcd MicroRSA.e ((p - 1) * (q - 1)) = 1 := by
  obtain ⟨p, q, ⟨j, hj⟩, ⟨k, hk⟩, hn, _, _, hgcd, _⟩ :=
    MicroRSA.generate_keys_spec stream fuel n e0 n2 d hgen
  refine ⟨p, q, hj ▸ hp j, hk ▸ hp k, hn, ?_⟩
  rw [← MicroRSA.gcd_eq]
  exact hgcd

/-- C5 (witness): the amended theorem applied to the stream `5, 11, 11, ...`,
for which `generate_keys` returns `((55, 65537), (55, 33))`. -/
theorem claim_C5_witness :
    ∃ p q, Nat.Prime p ∧ Nat.Prime q ∧ 55 = p * q ∧
      Nat.gcd MicroRSA.e ((p - 1) * (q - 1)) = 1 :=
  claim_C5_invariants wstream 1 55 65537 55 33 (by decide)
    (fun i => by
      by_cases h0 : i = 0
      · subst h0; rw [show wstream 0 = 5 from rfl]; norm_num
      · rw [show wstream i = 11 by simp [wstream, h0]]; norm_num)

/-! ## Claim C1: RSA sign/verify round-trip -/

/-- C1 (counterexample): the key pair `((25, 65537), (25, 1))` produced by
`generate_keys` from the prime stream `cstream` (the retry loop resampled
`p = q = 5`) fails the round-trip: for a message whose 32-byte digest is
all-`255`, `verify` returns `false` on the signature produced by `sign`. -/
theorem claim_C1_counterexample :
    MicroRSA.generate_keys cstream 4 = some ((25, 65537), (25, 1)) ∧
    (∀ i, Nat.Prime (cstream i)) ∧
    MicroRSA.sign 384 bigDigest () (25, 1) = some (MicroRSA.beBytes 10 48) ∧
    MicroRSA.verify bigDigest () (MicroRSA.beBytes 10 48) (25, 65537) = false := by
  refine ⟨by decide, ?_, by decide, by decide⟩
  intro i
  by_cases h0 : i = 0
  · subst h0; rw [show cstream 0 = 917519 from rfl]; norm_num
  · by_cases h1 : i = 1
    · subst h1; rw [show cstream 1 = 3 from rfl]; norm_num
    · rw [show cstream i = 5 by simp [cstream, h0, h1]]; norm_num

/-- C1 (amended): assuming `generate_prime` only returns primes, every key
pair returned by `generate_keys` whose modulus is not the square of a prime
(equivalently: whose two primes are distinct — guaranteed when the gcd-retry
loop is not taken, but not in general) satisfies the round-trip
`verify(m, sign(m, private), public) = True` for every message whose digest
value is below `n`, whenever the signature width `kl / 8` can hold `n`. -/
theorem claim_C1_roundtrip {α : Type} (digest : α → List Nat) (stream : Nat → Nat)
    (fuel kl n e0 n2 d : Nat) (msg : α)
    (hgen : MicroRSA.generate_keys stream fuel = some ((n, e0), (n2, d)))
    (hp : ∀ i, Nat.Prime (stream i))
    (hsq : ∀ r, Nat.Prime r → n ≠ r * r)
    (hm : MicroRSA.os2ip (digest msg) < n)
    (hfit : n ≤ 256 ^ (kl / 8)) :
    ∃ sig, MicroRSA.sign kl digest msg (n2, d) = some sig ∧
      MicroRSA.verify digest msg sig (n, e0) = true := by
  obtain ⟨p, q, ⟨j, hj⟩, ⟨k, hk⟩, hn, hn2, he0, hgcd, hinv⟩ :=
    MicroRSA.generate_keys_spec stream fuel n e0 n2 d hgen
  have hpp : Nat.Prime p := hj ▸ hp j
  have hqq : Nat.Prime q := hk ▸ hp k
  have hpq : p ≠ q := fun hc => hsq p hpp (by rw [hn, hc])
  have hphi : 0 < (p - 1) * (q - 1) := by
    have h2p := hpp.two_le
    have h2q := hqq.two_le
    exact Nat.mul_pos (by omega) (by omega)
  have hgcd' : Nat.gcd MicroRSA.e ((p - 1) * (q - 1)) = 1 := by
    rw [← MicroRSA.gcd_eq]; exact hgcd
  obtain ⟨x, hx1, hx2, hx3⟩ :=
    (MicroRSA.modinv_spec MicroRSA.e ((p - 1) * (q - 1)) hphi).1 hgcd'
  rw [hinv, Option.some.injEq] at hx1
  rw [← hx1] at hx3
  have hnpos : 0 < n := by rw [hn]; exact Nat.mul_pos hpp.pos hqq.pos
  set m := MicroRSA.os2ip (digest msg) with hmdef
  have hslt : m ^ d % n < n := Nat.mod_lt _ hnpos
  have hsfit : m ^ d % n < 256 ^ (kl / 8) := lt_of_lt_of_le hslt hfit
  obtain ⟨hser, hdeser⟩ := MicroRSA.os2ip_i2osp (m ^ d % n) (kl / 8) hsfit
  refine ⟨MicroRSA.beBytes (m ^ d % n) (kl / 8), ?_, ?_⟩
  · show MicroRSA.i2osp (MicroRSA.powMod m d n2) (kl / 8) = _
    rw [hn2, MicroRSA.powMod_eq, hser]
  · show decide (m = MicroRSA.powMod
      (MicroRSA.os2ip (MicroRSA.beBytes (m ^ d % n) (kl / 8))) e0 n) = true
    rw [hdeser, he0, MicroRSA.powMod_eq, ← Nat.pow_mod, ← pow_mul, hn,
      MicroRSA.rsa_key_round p q MicroRSA.e d hpp hqq hpq hx3 m (hn ▸ hm)]
    simp

/-- C1 (witness): the amended round-trip applied to the keys generated from
the stream `5, 11, 11, ...` and a message with digest byte `[42]`. -/
theorem claim_C1_witness :
    ∃ sig, MicroRSA.sign 384 (fun _ : Unit => [42]) () (55, 33) = some sig ∧
      MicroRSA.verify (fun _ : Unit => [42]) () sig (55, 65537) = true :=
  claim_C1_roundtrip (fun _ : Unit => [42]) wstream 1 384 55 65537 55 33 ()
    (by decide)
    (fun i => by
      by_cases h0 : i = 0
      · subst h0; rw [show wstream 0 = 5 from rfl]; norm_num
      · rw [show wstream i = 11 by simp [wstream, h0]]; norm_num)
    (fun r hr hc => by
      have h2 := hr.two_le
      rcases Nat.lt_or_ge r 8 with h8 | h8
      · interval_cases r <;> omega
      · have : 64 ≤ r * r := Nat.mul_le_mul h8 h8
        omega)
    (by decide)
    (by norm_num)

/-! ## Claim C7: is_prime on small known inputs -/

/-- Every Miller-Rabin round passes on 97 (specifically on every drawable
base `a = v % 93 + 2`), so `is_prime` accepts 97 for every stream. -/
theorem isPrime97 (stream : Nat → Nat) (rounds : Nat) :
    MicroRSA.is_prime stream rounds 97 = true := by
  show MicroRSA.isPrimeLoop stream 97 3 5 rounds 0 = true
  apply MicroRSA.isPrimeLoop_of_pass
  intro i
  show MicroRSA.mrCheck 97 3 5 (stream i % 93 + 2) = true
  have hv : stream i % 93 < 93 := Nat.mod_lt _ (by norm_num)
  exact ballSplit_spec 8 (fun v => MicroRSA.mrCheck 97 3 5 (v + 2)) 0 93 (by decide)
    (stream i % 93) (Nat.zero_le _) (by omega)

set_option maxHeartbeats 8000000 in
/-- Every Miller-Rabin round passes on 7919 for every drawable base. -/
theorem isPrime7919 (stream : Nat → Nat) (rounds : Nat) :
    MicroRSA.is_prime stream rounds 7919 = true := by
  show MicroRSA.isPrimeLoop stream 7919 3959 1 rounds 0 = true
  apply MicroRSA.isPrimeLoop_of_pass
  intro i
  show MicroRSA.mrCheck 7919 3959 1 (stream i % 7915 + 2) = true
  have hv : stream i % 7915 < 7915 := Nat.mod_lt _ (by norm_num)
  exact ballSplit_spec 14 (fun v => MicroRSA.mrCheck 7919 3959 1 (v + 2)) 0 7915 (by decide)
    (stream i % 7915) (Nat.zero_le _) (by omega)

/-- `is_prime` accepts 5 for every stream (the only drawable base is 2). -/
theorem isPrime5 (stream : Nat → Nat) (rounds : Nat) :
    MicroRSA.is_prime stream rounds 5 = true := by
  show MicroRSA.isPrimeLoop stream 5 1 2 rounds 0 = true
  apply MicroRSA.isPrimeLoop_of_pass
  intro i
  show MicroRSA.mrCheck 5 1 2 (stream i % 1 + 2) = true
  rw [Nat.mod_one]
  decide

/-- `is_prime` rejects 9 in the very first round, for every drawable base. -/
theorem isPrimeNot9 (stream : Nat → Nat) (r : Nat) :
    MicroRSA.is_prime stream (r + 1) 9 = false := by
  show MicroRSA.isPrimeLoop stream 9 1 3 (r + 1) 0 = false
  apply MicroRSA.isPrimeLoop_of_fail
  show MicroRSA.mrCheck 9 1 3 (stream 0 % 5 + 2) = false
  have hv : stream 0 % 5 < 5 := Nat.mod_lt _ (by norm_num)
  have h := ballSplit_spec 4 (fun v => !MicroRSA.mrCheck 9 1 3 (v + 2)) 0 5 (by decide)
    (stream 0 % 5) (Nat.zero_le _) (by omega)
  simpa using h

/-- C7 (counterexample): the Miller-Rabin base `a = 182 % 7917 + 2 = 184` is
a strong liar for the composite `7921 = 89 ^ 2`, so a random stream that
keeps drawing `182` makes `is_prime` return `true` on `7921` with the
default five rounds — the claim "`false` on 7921 across all round counts
and streams" fails. -/
theorem claim_C7_counterexample : MicroRSA.is_prime (fun _ => 182) 5 7921 = true := by decide

/-- C7 (amended): for every random stream and round count `≥ 1`, `is_prime`
returns `true` on 2, 3, 5, 97, 7919 and `false` on 4, 9, 100; on the
composite 7921 the result is stream-dependent (see the counterexample), so
7921 is excluded. -/
theorem claim_C7_small_inputs (stream : Nat → Nat) (rounds : Nat) (hr : 1 ≤ rounds) :
    MicroRSA.is_prime stream rounds 2 = true ∧
    MicroRSA.is_prime stream rounds 3 = true ∧
    MicroRSA.is_prime stream rounds 5 = true ∧
    MicroRSA.is_prime stream rounds 97 = true ∧
    MicroRSA.is_prime stream rounds 7919 = true ∧
    MicroRSA.is_prime stream rounds 4 = false ∧
    MicroRSA.is_prime stream rounds 9 = false ∧
    MicroRSA.is_prime stream rounds 100 = false := by
  obtain ⟨r, rfl⟩ : ∃ r, rounds = r + 1 := ⟨rounds - 1, by omega⟩
  exact ⟨rfl, rfl, isPrime5 stream (r + 1), isPrime97 stream (r + 1),
    isPrime7919 stream (r + 1), rfl, isPrimeNot9 stream r, rfl⟩

/-- C7 (witness): the amended theorem applied to the zero stream with a
single round. -/
theorem claim_C7_witness :
    MicroRSA.is_prime (fun _ => 0) 1 2 = true ∧
    MicroRSA.is_prime (fun _ => 0) 1 3 = true ∧
    MicroRSA.is_prime (fun _ => 0) 1 5 = true ∧
    MicroRSA.is_prime (fun _ => 0) 1 97 = true ∧
    MicroRSA.is_prime (fun _ => 0) 1 7919 = true ∧
    MicroRSA.is_prime (fun _ => 0) 1 4 = false ∧
    MicroRSA.is_prime (fun _ => 0) 1 9 = false ∧
    MicroRSA.is_prime (fun _ => 0) 1 100 = false :=
  claim_C7_small_inputs (fun _ => 0) 1 (by decide)

/-! ## Claim C9: verify on malformed signatures -/

/-- C9: for every hash oracle, message, public key and signature byte
string, if the signature is not exactly 64 bytes long, or its last 32 bytes
decode (little-endian) to `S ≥ l`, then `MicroEd25519.verify` returns the
normal boolean result `False` (`some false`) — never an exception (`none`).
Both checks happen before any fallible operation. -/
theorem claim_C9_invalid_signature (H : List Nat → List Nat) (msg sig : List Nat)
    (public : Nat)
    (h : sig.length ≠ 64 ∨ MicroEd25519.l ≤ MicroEd25519.fromLE (List.drop 32 sig)) :
    MicroEd25519.verify H msg sig public = some false := by
  rw [MicroEd25519.verify]
  by_cases hl : sig.length ≠ 64
  · rw [if_pos hl]
  · rw [if_neg hl]
    have hS : MicroEd25519.fromLE (List.drop 32 sig) ≥ MicroEd25519.l := by
      rcases h with h | h
      · exact absurd h hl
      · exact h
    dsimp only
    rw [if_pos hS]

/-- C9 (witness): the empty signature is rejected with `some false`. -/
theorem claim_C9_witness :
    MicroEd25519.verify (fun _ => []) [] [] 0 = some false :=
  claim_C9_invalid_signature (fun _ => []) [] [] 0 (Or.inl (by decide))

/-! ## Claims C2, C3, C4: the Ed25519 curve arithmetic defects -/

/-- The evaluation-order wrapper `forcePair` is the identity. -/
theorem forcePair_eq (q : Nat × Nat) : MicroEd25519.forcePair q = q := ite_self q

/-- The evaluation-order wrapper `forceQ` is the identity. -/
theorem forceQ_eq : ∀ Q, MicroEd25519.forceQ Q = Q := by
  intro Q
  cases Q with
  | none => rfl
  | some q => exact ite_self _

/-- Stepping from the sunk accumulator `(0, 0)`: every window digit keeps
the accumulator at `(0, 0)` (doubling `(0, 0)` degenerates, and the table
addition to `(0, 0)` has `K = 0`, hence `z3 = 0` and `inv 0 = 0`). -/
theorem stepQ_zero_sink : ∀ w, w ≤ 7 →
    MicroEd25519.stepQ (MicroEd25519.point_decompress MicroEd25519.G) w (some (0, 0))
      = some (0, 0) := by
  intro w hw
  exact of_decide_eq_true (ballSplit_spec 4
    (fun v => decide (MicroEd25519.stepQ
      (MicroEd25519.point_decompress MicroEd25519.G) v (some (0, 0)) = some (0, 0)))
    0 8 (by decide) w (Nat.zero_le _) (by omega))

/-- Once the accumulator is `(0, 0)`, the whole remaining loop returns
`(0, 0)`. -/
theorem multLoop_sink (P0 : Nat × Nat)
    (hstep : ∀ w, w ≤ 7 → MicroEd25519.stepQ P0 w (some (0, 0)) = some (0, 0)) :
    ∀ ws : List Nat, (∀ w ∈ ws, w ≤ 7) →
      MicroEd25519.multLoop P0 ws (some (0, 0)) = some (0, 0) := by
  intro ws
  induction ws with
  | nil => intro _; rfl
  | cons w ws ih =>
    intro hmem
    rw [MicroEd25519.multLoop, hstep w (hmem w (by simp))]
    exact ih (fun x hx => hmem x (by simp [hx]))

/-- A window list whose first step lands on `Q1v` and whose second step
sinks to `(0, 0)` multiplies out to `(0, 0)`. -/
theorem multLoop_collapse (P0 : Nat × Nat) (w0 w1 : Nat) (ws : List Nat)
    (Q1v : Nat × Nat)
    (hstep : ∀ w, w ≤ 7 → MicroEd25519.stepQ P0 w (some (0, 0)) = some (0, 0))
    (h1 : MicroEd25519.stepQ P0 w0 none = some Q1v)
    (h2 : MicroEd25519.stepQ P0 w1 (some Q1v) = some (0, 0))
    (hws : ∀ w ∈ ws, w ≤ 7) :
    MicroEd25519.multLoop P0 (w0 :: w1 :: ws) none = some (0, 0) := by
  rw [MicroEd25519.multLoop, h1, MicroEd25519.multLoop, h2]
  exact multLoop_sink P0 hstep ws hws

/-- Unfolding of `scalar_mult` in terms of the loop (pure definitional
rewriting, no evaluation). -/
theorem scalar_mult_def (k c : Nat) : MicroEd25519.scalar_mult k c =
    (MicroEd25519.multLoop (MicroEd25519.point_decompress c)
      (MicroEd25519.toWindows k).reverse none).map
      (fun q => MicroEd25519.point_compress q.1 q.2) := rfl

/-- `scalar_mult` of the clamped secret `2 ^ 254` collapses to the
compressed `(0, 0)`, i.e. `0`: the window list is `4, 0, 0, ...`, the first
doubling of the table entry already has `x3 = 0` and the second doubling
sinks to `(0, 0)`. -/
theorem scalar_mult_secret :
    MicroEd25519.scalar_mult (2 ^ 254) MicroEd25519.G = some 0 := by
  rw [scalar_mult_def]
  rw [show (MicroEd25519.toWindows (2 ^ 254)).reverse = 4 :: 0 :: List.replicate 83 0 from
    by decide]
  rw [multLoop_collapse _ 4 0 (List.replicate 83 0)
    (52296522021242708237600326278232146795261460412523773499924648016294358327441,
     54802325810041810766817548079095868733192743838302572990026934622433957731496)
    stepQ_zero_sink (by decide) (by decide)
    (fun w hw => by rw [List.eq_of_mem_replicate hw]; omega)]
  rfl

/-- `scalar_mult` of the signature scalar `S = (1 + 2 ^ 254) mod l` also
collapses to `0`. -/
theorem scalar_mult_S :
    MicroEd25519.scalar_mult
      7237005577332262213973186563042994240746147088270418191858543187121919657018
      MicroEd25519.G = some 0 := by
  rw [scalar_mult_def]
  rw [show (MicroEd25519.toWindows
      7237005577332262213973186563042994240746147088270418191858543187121919657018).reverse
    = 7 :: 7 :: ((MicroEd25519.toWindows
      7237005577332262213973186563042994240746147088270418191858543187121919657018).reverse.drop 2)
    from by decide]
  rw [multLoop_collapse _ 7 7 _
    (14247657086411921491734147570551819859320096758923775533698413380771361985035,
     42011241901976813922217919985779291684042258661475955568470752484536976498597)
    stepQ_zero_sink (by decide) (by decide) (by decide)]
  rfl

/-- `scalar_mult 1` returns the (re-)compressed decompression of its input:
on `G` this is the numeral `Gx` (the wrongly recovered `y` is even). -/
theorem scalar_mult_one_G :
    MicroEd25519.scalar_mult 1 MicroEd25519.G =
      some 15112221349535400772501151409588531511454012693041857206046113283949847762202 := by
  decide

/-- `scalar_mult 1 0 = some 0`: decompressing `0` gives `(0, y)` with `y`
even, which recompresses to `0`. -/
theorem scalar_mult_one_zero : MicroEd25519.scalar_mult 1 0 = some 0 := by decide

/-- Symbolic evaluation of `sign`: if all the intermediate conversions and
scalar multiplications succeed with the given values, `sign` returns
`R_bytes ++ S_bytes`. -/
theorem sign_eq (H : List Nat → List Nat) (msg : List Nat) (secret : Nat)
    (sb Rb Ab Sb : List Nat) (Rv Av : Nat)
    (h1 : MicroEd25519.toLE secret 32 = some sb)
    (h2 : MicroEd25519.scalar_mult
      (MicroEd25519.fromLE (H ((H sb).drop 32 ++ msg)) % MicroEd25519.l)
      MicroEd25519.G = some Rv)
    (h3 : MicroEd25519.scalar_mult
      (MicroEd25519.clampScalar (MicroEd25519.fromLE ((H sb).take 32)))
      MicroEd25519.G = some Av)
    (h4 : MicroEd25519.toLE Rv 32 = some Rb)
    (h5 : MicroEd25519.toLE Av 32 = some Ab)
    (h6 : MicroEd25519.toLE
      ((MicroEd25519.fromLE (H ((H sb).drop 32 ++ msg)) % MicroEd25519.l +
        MicroEd25519.fromLE (H (Rb ++ Ab ++ msg)) *
          MicroEd25519.clampScalar (MicroEd25519.fromLE ((H sb).take 32)))
        % MicroEd25519.l) 32 = some Sb) :
    MicroEd25519.sign H msg secret = some (Rb ++ Sb) := by
  rw [MicroEd25519.sign, h1]
  dsimp only
  rw [h2]
  dsimp only
  rw [h4, h3]
  dsimp only
  rw [h5]
  dsimp only
  rw [h6]

/-- Symbolic evaluation of `verify` on a well-formed signature. -/
theorem verify_eq (H : List Nat → List Nat) (msg sig : List Nat) (public : Nat)
    (Ab : List Nat) (hAv lv : Nat)
    (hlen : ¬ sig.length ≠ 64)
    (hS : ¬ MicroEd25519.fromLE (sig.drop 32) ≥ MicroEd25519.l)
    (h1 : MicroEd25519.toLE public 32 = some Ab)
    (h2 : MicroEd25519.scalar_mult
      (MicroEd25519.fromLE (H (sig.take 32 ++ Ab ++ msg)) % MicroEd25519.l)
      public = some hAv)
    (h3 : MicroEd25519.scalar_mult (MicroEd25519.fromLE (sig.drop 32))
      MicroEd25519.G = some lv) :
    MicroEd25519.verify H msg sig public = some (decide ((some lv : Option Nat) =
      some (MicroEd25519.point_compress
        (MicroEd25519.addCore
          (MicroEd25519.point_decompress (MicroEd25519.fromLE (sig.take 32)))
          (MicroEd25519.point_decompress hAv)).1
        (MicroEd25519.addCore
          (MicroEd25519.point_decompress (MicroEd25519.fromLE (sig.take 32)))
          (MicroEd25519.point_decompress hAv)).2))) := by
  rw [MicroEd25519.verify, if_neg hlen]
  dsimp only
  rw [if_neg hS, h1]
  dsimp only
  rw [h2]
  dsimp only [MicroEd25519.point_add]
  rw [h3]

set_option maxHeartbeats 2000000 in
/-- Concrete evaluation of `sign` for the `Hone` oracle, empty message and
the generated secret `2 ^ 254`. -/
theorem sign_eval : MicroEd25519.sign Hone [] (2 ^ 254) = some
    (MicroEd25519.leBytes
      15112221349535400772501151409588531511454012693041857206046113283949847762202 32 ++
     MicroEd25519.leBytes
      7237005577332262213973186563042994240746147088270418191858543187121919657018 32) := by
  refine sign_eq Hone [] (2 ^ 254) (MicroEd25519.leBytes (2 ^ 254) 32)
    (MicroEd25519.leBytes
      15112221349535400772501151409588531511454012693041857206046113283949847762202 32)
    (MicroEd25519.leBytes 0 32)
    (MicroEd25519.leBytes
      7237005577332262213973186563042994240746147088270418191858543187121919657018 32)
    15112221349535400772501151409588531511454012693041857206046113283949847762202 0
    (by decide) ?_ ?_ (by decide) (by decide) (by decide)
  · rw [show MicroEd25519.fromLE (Hone ((Hone (MicroEd25519.leBytes (2 ^ 254) 32)).drop 32
      ++ ([] : List Nat))) % MicroEd25519.l = 1 from by decide]
    exact scalar_mult_one_G
  · rw [show MicroEd25519.clampScalar
      (MicroEd25519.fromLE ((Hone (MicroEd25519.leBytes (2 ^ 254) 32)).take 32)) = 2 ^ 254
      from by decide]
    exact scalar_mult_secret

set_option maxHeartbeats 2000000 in
/-- Concrete evaluation of `verify` on the honest signature: it returns
`some false` (the collapsed left side `some 0` differs from the compressed
right side). -/
theorem verify_eval : MicroEd25519.verify Hone []
    (MicroEd25519.leBytes
      15112221349535400772501151409588531511454012693041857206046113283949847762202 32 ++
     MicroEd25519.leBytes
      7237005577332262213973186563042994240746147088270418191858543187121919657018 32)
    0 = some false := by
  have h := verify_eq Hone []
    (MicroEd25519.leBytes
      15112221349535400772501151409588531511454012693041857206046113283949847762202 32 ++
     MicroEd25519.leBytes
      7237005577332262213973186563042994240746147088270418191858543187121919657018 32)
    0 (MicroEd25519.leBytes 0 32) 0 0
    (by decide) (by decide) (by decide) ?_ ?_
  · rw [h]
    decide
  · rw [show MicroEd25519.fromLE (Hone
      ((MicroEd25519.leBytes
        15112221349535400772501151409588531511454012693041857206046113283949847762202 32 ++
       MicroEd25519.leBytes
        7237005577332262213973186563042994240746147088270418191858543187121919657018 32).take 32
        ++ MicroEd25519.leBytes 0 32 ++ ([] : List Nat))) % MicroEd25519.l = 1 from by decide]
    exact scalar_mult_one_zero
  · rw [show MicroEd25519.fromLE
      ((MicroEd25519.leBytes
        15112221349535400772501151409588531511454012693041857206046113283949847762202 32 ++
       MicroEd25519.leBytes
        7237005577332262213973186563042994240746147088270418191858543187121919657018 32).drop 32)
      = 7237005577332262213973186563042994240746147088270418191858543187121919657018
      from by decide]
    exact scalar_mult_S

/-- Symbolic evaluation of `MicroEd25519.generate_keys`. -/
theorem gk_eq (H : List Nat → List Nat) (seed : List Nat) (s pub : Nat)
    (h1 : MicroEd25519.generate_secret H seed = s)
    (h2 : MicroEd25519.scalar_mult s MicroEd25519.G = some pub) :
    MicroEd25519.generate_keys H seed = some (s, pub) := by
  delta MicroEd25519.generate_keys
  dsimp only
  rw [h1, h2]

/-- Concrete evaluation of `generate_keys`: the secret clamps to `2 ^ 254`
and the public key is the collapsed `0`. -/
theorem generate_keys_eval :
    MicroEd25519.generate_keys Hone seed0 = some (2 ^ 254, 0) :=
  gk_eq Hone seed0 (2 ^ 254) 0 (by decide) scalar_mult_secret

/-- C2: the sign/verify round-trip FAILS on the code.  With the digest
oracle `Hone` (standing for SHA-256) and any 32-byte seed, `generate_keys`
succeeds, `sign` succeeds, and `verify` returns `some false` on the honest
signature — not `True` as claimed.  The root cause is `point_add`, whose
formula degenerates on doubling (`P = Q` gives `A = B = 0`, hence `x3 = 0`),
so `scalar_mult` collapses (here the public key is the compressed `(0, 0)`,
i.e. `0`). -/
theorem claim_C2_roundtrip_fails :
    ((MicroEd25519.generate_keys Hone seed0).bind (fun kp =>
      (MicroEd25519.sign Hone [] kp.1).bind (fun sg =>
        MicroEd25519.verify Hone [] sg kp.2))) = some false := by
  rw [generate_keys_eval]
  dsimp only [Option.bind]
  rw [sign_eval]
  dsimp only [Option.bind]
  exact verify_eval

/-- C3: compression round-trip FAILS on the code at the base point itself.
`(Gx, Gy)` is a genuine curve point (first conjunct: it satisfies the
twisted-Edwards equation `y² ≡ 1 + x² + d·x²·y² (mod p)`; both coordinates
are reduced), yet `point_decompress (point_compress Gx Gy) ≠ (Gx, Gy)`:
`point_decompress` recovers `y` from `x` through
`y² = (x² - 1)/(d·x² + 1)`, which is the curve's formula for `x²` in terms
of `y²` with the roles swapped, not the correct `y² = (1 + x²)/(1 - d·x²)`. -/
theorem claim_C3_compress_roundtrip_fails :
    (1 + MicroEd25519.Gx * MicroEd25519.Gx +
        MicroEd25519.d * MicroEd25519.Gx * MicroEd25519.Gx * MicroEd25519.Gy * MicroEd25519.Gy)
        % MicroEd25519.p
      = (MicroEd25519.Gy * MicroEd25519.Gy) % MicroEd25519.p ∧
    MicroEd25519.Gx < MicroEd25519.p ∧ MicroEd25519.Gy < MicroEd25519.p ∧
    MicroEd25519.point_decompress (MicroEd25519.point_compress MicroEd25519.Gx MicroEd25519.Gy)
      ≠ (MicroEd25519.Gx, MicroEd25519.Gy) := by decide

/-- C4: `point_decompress` NEVER signals a `DecodeError`; when no square
root exists it silently returns a wrong pair.  At the compressed input
`c = 2`: the candidate `y² = y2At 2` is a quadratic non-residue modulo `p`
(first conjunct, Euler's criterion: `y2 ^ ((p-1)/2) ≡ -1`), yet
`point_decompress` returns the pair `(2, y)` below whose `y` does not
satisfy `y * y ≡ y2At 2 (mod p)` (third conjunct) — exactly the "silently
returning a wrong point" the claim rules out. -/
theorem claim_C4_decompress_silent_wrong :
    MicroRSA.powMod (MicroEd25519.y2At 2) ((MicroEd25519.p - 1) / 2) MicroEd25519.p
      = MicroEd25519.p - 1 ∧
    MicroEd25519.point_decompress 2 =
      (2, 15185035556283238358358299567679723596735194429604445868805687310551713597428) ∧
    (15185035556283238358358299567679723596735194429604445868805687310551713597428 : Nat) *
        15185035556283238358358299567679723596735194429604445868805687310551713597428
        % MicroEd25519.p ≠ MicroEd25519.y2At 2 := by decide
